import Mathlib

/-!
Shallow embedding of the query-pipeline core of the repository:
`dataTransform.js` (grouping / aggregation engine) and the algorithmic
parts of `src/HotelBookingDashboard.tsx` (partial-date parsing, date-range
overlap filtering, dual-key sort comparator, pagination).

Modelling conventions:
* JavaScript numbers are modelled as `Rat` (exact arithmetic; the claims
  under verification do not depend on floating-point rounding).
* A JavaScript `Date` constructed by `new Date(y, monthIndex, day, h, m, s)`
  is modelled by its timestamp (an `Int`, in seconds from a fixed origin);
  month indices and day numbers outside their nominal ranges roll over
  through the calendar exactly as in ECMAScript `MakeDay`.
* `undefined`/`null` propagate as `Option.none`; a thrown `Error` is
  `Except.error` carrying the message string.
-/

/-- Truthiness of a JS `number | null` value: `null`, `NaN` and `0` are falsy.
`none` covers both `null` and `NaN`; every use in the source guards a value by
truthiness before using it arithmetically, so collapsing `NaN` into `none` is
observationally faithful. -/
def jsTruthy : Option Int → Bool
  | none => false
  | some n => n != 0

/-- Numeric value of the digits `0`-`9`. -/
def decDigitVal (c : Char) : Nat := c.toNat - '0'.toNat

/-- Value of a hexadecimal digit. -/
def hexDigitVal (c : Char) : Nat :=
  if c.isDigit then c.toNat - '0'.toNat
  else if 'a' ≤ c then c.toNat - 'a'.toNat + 10
  else c.toNat - 'A'.toNat + 10

/-- Is `c` a hexadecimal digit? -/
def isHexDigit (c : Char) : Bool :=
  c.isDigit || ('a' ≤ c && c ≤ 'f') || ('A' ≤ c && c ≤ 'F')

/-- Accumulate a digit list into a natural number in base `b`. -/
def digitsToNat (b : Nat) (val : Char → Nat) (cs : List Char) : Nat :=
  cs.foldl (fun a c => a * b + val c) 0

/-- Splitting a character list at every occurrence of `c`, with the same
boundary behaviour as JavaScript `String.prototype.split` on a one-character
separator: `"" ↦ [""]`, a trailing separator yields a trailing empty segment.
(Structural recursion stands in for `String.split`, whose well-founded
recursion the kernel cannot evaluate.) -/
def splitOnChar (c : Char) : List Char → List (List Char)
  | [] => [[]]
  | x :: rest =>
    if x = c then [] :: splitOnChar c rest
    else
      match splitOnChar c rest with
      | [] => [[x]]
      | h :: t => (x :: h) :: t

/-- Model of ECMAScript `parseInt(s)` (radix argument omitted, hence 10 with
the `0x`/`0X` hexadecimal prefix rule): skip leading whitespace, read an
optional sign, then the longest digit run; `none` models `NaN` (no digits). -/
def jsParseIntL (chars : List Char) : Option Int :=
  let cs := chars.dropWhile (fun c => c.isWhitespace)
  let signAndRest : Int × List Char :=
    match cs with
    | '-' :: rest => (-1, rest)
    | '+' :: rest => (1, rest)
    | _ => (1, cs)
  let sign := signAndRest.1
  match signAndRest.2 with
  | '0' :: 'x' :: rest =>
      let ds := rest.takeWhile isHexDigit
      if ds = [] then none else some (sign * (digitsToNat 16 hexDigitVal ds : Nat))
  | '0' :: 'X' :: rest =>
      let ds := rest.takeWhile isHexDigit
      if ds = [] then none else some (sign * (digitsToNat 16 hexDigitVal ds : Nat))
  | rest =>
      let ds := rest.takeWhile (fun c => c.isDigit)
      if ds = [] then none else some (sign * (digitsToNat 10 decDigitVal ds : Nat))

/-- `parseInt` on a `String`. -/
def jsParseInt (s : String) : Option Int := jsParseIntL s.data

/-- Gregorian leap-year test, as in ECMAScript `DaysInYear`. -/
def isLeap (y : Int) : Bool :=
  (y.emod 4 == 0 && y.emod 100 != 0) || y.emod 400 == 0

/-- Length in days of 0-based month `m` (0 = January … 11 = December) of year `y`. -/
def monthLen (y : Int) (m : Nat) : Int :=
  match m with
  | 0 => 31 | 1 => if isLeap y then 29 else 28 | 2 => 31 | 3 => 30 | 4 => 31
  | 5 => 30 | 6 => 31 | 7 => 31 | 8 => 30 | 9 => 31 | 10 => 30 | _ => 31

/-- Days of year `y` that precede 0-based month `m`. -/
def daysBeforeMonth (y : Int) (m : Nat) : Int :=
  let leap : Int := if isLeap y then 1 else 0
  match m with
  | 0 => 0 | 1 => 31 | 2 => 59 + leap | 3 => 90 + leap | 4 => 120 + leap
  | 5 => 151 + leap | 6 => 181 + leap | 7 => 212 + leap | 8 => 243 + leap
  | 9 => 273 + leap | 10 => 304 + leap | _ => 334 + leap

/-- Days from the origin (Jan 1 of year 0) to Jan 1 of year `y`. -/
def daysToYear (y : Int) : Int :=
  365 * y + (y + 3).fdiv 4 - (y + 99).fdiv 100 + (y + 399).fdiv 400

/-- Timestamp (seconds from the origin) of `new Date(y, mIdx, d, h, mi, s)`.
The month index is normalized into the year exactly as ECMAScript `MakeDay`
does, and an out-of-range `d` (0, negative, or beyond the month length) rolls
over through adjacent months via plain day arithmetic. The model is an affine
image of `Date.prototype.getTime` (origin and unit differ), so comparisons and
equalities of `Date`s are preserved. -/
def jsTime (y mIdx d h mi s : Int) : Int :=
  let yN := y + mIdx.fdiv 12
  let mN := (mIdx.emod 12).toNat
  (daysToYear yN + daysBeforeMonth yN mN + (d - 1)) * 86400 + h * 3600 + mi * 60 + s

/-- Day-of-month of `new Date(y, mIdx, 0)`, the only shape with which the
source calls `getDate()`: day 0 is the last day of the month preceding the
normalized month index, so `getDate()` returns that month's length. -/
def jsGetDateDay0 (y mIdx : Int) : Int :=
  let yN := y + (mIdx - 1).fdiv 12
  let mN := ((mIdx - 1).emod 12).toNat
  monthLen yN mN

/-- Closed interval between two `Date` timestamps, modelling `{ start, end }`
objects of the dashboard (`stop` stands for the reserved word `end`). -/
structure JsInterval where
  start : Int
  stop : Int
deriving DecidableEq, Repr

/-- Model of the dashboard's `rangesOverlap`:
`range1.start <= range2.end && range1.end >= range2.start`. -/
def rangesOverlap (range1 range2 : JsInterval) : Bool :=
  range1.start ≤ range2.stop && range1.stop ≥ range2.start

/-- Model of the dashboard's `parsePartialDate`. The string is split on `'-'`;
each segment is `parseInt`ed if non-empty (a falsy empty segment yields
`null`); a falsy (`null`/`NaN`/`0`) or pre-1900 year yields `null`; otherwise
the day/month truthiness cascade selects the full-date, month, or year
interval. -/
def parsePartialDate (dateStr : String) : Option JsInterval :=
  if dateStr = "" then none else
  let parts := splitOnChar '-' dateStr.data
  let year : Option Int :=
    match parts with
    | p :: _ => if p = [] then none else jsParseIntL p
    | [] => none
  let month : Option Int :=
    match parts with
    | _ :: p :: _ => if p = [] then none else jsParseIntL p
    | _ => none
  let day : Option Int :=
    match parts with
    | _ :: _ :: p :: _ => if p = [] then none else jsParseIntL p
    | _ => none
  match year with
  | none => none
  | some y =>
    if y = 0 ∨ y < 1900 then none
    else if jsTruthy day && jsTruthy month then
      let m := month.getD 0
      let d := day.getD 0
      let date := jsTime y (m - 1) d 0 0 0
      some ⟨date, date⟩
    else if jsTruthy month then
      let m := month.getD 0
      let lastDay := jsGetDateDay0 y m
      some ⟨jsTime y (m - 1) 1 0 0 0, jsTime y (m - 1) lastDay 23 59 59⟩
    else
      some ⟨jsTime y 0 1 0 0 0, jsTime y 11 31 23 59 59⟩

/-- Model of the date-range criterion of `filteredHotels` (the branch of the
filter predicate guarded by `filters.dateRange`): `checkIn`/`checkOut` are the
filter's text fields (a `""` field is falsy, i.e. not supplied), and
`hotelRange` is the record's availability interval (built by the source from
`hotel.availability` before this branch; it enters the criterion only through
the overlap tests, so it is taken here as an interval parameter). Returns
whether the record survives the date criterion. -/
def dateRangeCriterion (checkIn checkOut : String) (hotelRange : JsInterval) : Bool :=
  if checkIn ≠ "" then
    match parsePartialDate checkIn with
    | none => false
    | some checkInRange =>
      if checkOut ≠ "" then
        match parsePartialDate checkOut with
        | none => false
        | some checkOutRange =>
          if checkInRange.start ≥ checkOutRange.stop then false
          else rangesOverlap ⟨checkInRange.start, checkOutRange.stop⟩ hotelRange
      else rangesOverlap checkInRange hotelRange
  else if checkOut ≠ "" then
    match parsePartialDate checkOut with
    | none => false
    | some checkOutRange => rangesOverlap checkOutRange hotelRange
  else true

/-! ### Dual-key sort comparator of the dashboard -/

/-- Record schema of the dashboard's `Hotel` type. Availability is carried as
the two date strings of the source; prices and ratings are numbers. -/
structure Hotel where
  id : Int
  name : String
  city : String
  price : Rat
  rating : Rat
  amenities : List String
  availCheckIn : String
  availCheckOut : String
deriving DecidableEq, Repr

/-- Sortable fields: the four column headers the dashboard sorts by
(`['name', 'city', 'price', 'rating']`). -/
inductive SortField where
  | name | city | price | rating
deriving DecidableEq, Repr

/-- Sort direction, `'asc' | 'desc'`. -/
inductive SortOrder where
  | asc | desc
deriving DecidableEq, Repr

/-- JavaScript `a[field] > b[field]`: numeric fields compare numerically,
string fields by lexicographic character order (`<` on `String` models the
code-unit order of JS; the two differ only beyond the basic plane). -/
def fieldGt (f : SortField) (a b : Hotel) : Bool :=
  match f with
  | .name => b.name < a.name
  | .city => b.city < a.city
  | .price => b.price < a.price
  | .rating => b.rating < a.rating

/-- JavaScript `a[field] < b[field]`. -/
def fieldLt (f : SortField) (a b : Hotel) : Bool := fieldGt f b a

/-- Secondary sort spec `{ field, order }`. -/
structure SecondarySort where
  field : SortField
  order : SortOrder
deriving DecidableEq, Repr

/-- The dashboard's `SortConfig`: primary field and order, optional secondary. -/
structure SortConfig where
  field : SortField
  order : SortOrder
  secondary : Option SecondarySort
deriving DecidableEq, Repr

/-- Model of the comparator passed to `results.sort` in `filteredHotels`:
primary comparison is `a[f] > b[f] ? 1 : -1` (ascending) or
`a[f] < b[f] ? 1 : -1` (descending); if it is non-zero or no secondary spec is
present it is returned, otherwise the secondary comparison is computed the
same way. -/
def hotelCompare (sort : SortConfig) (a b : Hotel) : Int :=
  let primaryCompare : Int :=
    match sort.order with
    | .asc => if fieldGt sort.field a b then 1 else -1
    | .desc => if fieldLt sort.field a b then 1 else -1
  if primaryCompare != 0 || sort.secondary.isNone then primaryCompare
  else
    match sort.secondary with
    | none => primaryCompare
    | some sec =>
      match sec.order with
      | .asc => if fieldGt sec.field a b then 1 else -1
      | .desc => if fieldLt sec.field a b then 1 else -1

/-! ### Pagination -/

/-- Model of `Array.prototype.slice(start, end)`: a negative bound counts from
the end of the array, bounds are clamped to `[0, length]`, and the elements
with indices in `[k, fin)` are returned. -/
def jsSlice {α : Type} (l : List α) (start stop : Int) : List α :=
  let len : Int := l.length
  let k := if start < 0 then max (len + start) 0 else min start len
  let fin := if stop < 0 then max (len + stop) 0 else min stop len
  (l.drop k.toNat).take (fin - k).toNat

/-- Model of `totalPages = Math.ceil(filteredHotels.length / itemsPerPage)`:
the integer ceiling of the quotient, written with floor division (`/` on `Int`
rounds toward negative infinity for a positive divisor). -/
def totalPages {α : Type} (l : List α) (pageSize : Int) : Int :=
  -((-(l.length : Int)) / pageSize)

/-- Model of
`filteredHotels.slice((currentPage - 1) * itemsPerPage, currentPage * itemsPerPage)`,
generalized over the page size exactly as the specification's `Paginator`. -/
def paginate {α : Type} (l : List α) (pageSize pageNumber : Int) : List α :=
  jsSlice l ((pageNumber - 1) * pageSize) (pageNumber * pageSize)

/-! ### Grouping / aggregation engine (`dataTransform.js`) -/

/-- JSON-like record values: numbers (as exact rationals), strings, booleans,
`null`, and nested objects as ordered field lists. This is the open record
shape `transformData` operates on. -/
inductive JsVal where
  | num (q : Rat)
  | str (s : String)
  | bool (b : Bool)
  | jnull
  | obj (fields : List (String × JsVal))

/-- Property lookup on an object's field list (fields of the record literals
are unique, so first-match lookup coincides with JS object access). -/
def lookupField : List (String × JsVal) → String → Option JsVal
  | [], _ => none
  | (k, v) :: rest, key => if k = key then some v else lookupField rest key

/-- Model of `getNestedValue`: split the path on `'.'` and walk with optional
chaining; any intermediate `undefined`/`null`/non-object yields `undefined`
(primitive property access such as `"abc".length` is not modelled; no path in
the claims dereferences a primitive). -/
def getNestedValue (record : JsVal) (path : String) : Option JsVal :=
  (splitOnChar '.' path.data).foldl
    (fun acc seg =>
      match acc with
      | some (JsVal.obj fields) => lookupField fields (String.mk seg)
      | _ => none)
    (some record)

/-- Decimal rendering of a number for string coercion. Integral values render
as in JS; non-integral formatting is idealized (no claim exercises it). -/
def ratToStr (q : Rat) : String :=
  if q.den = 1 then toString q.num else toString q.num ++ "/" ++ toString q.den

/-- How `Array.prototype.join` renders one resolved element: `undefined` and
`null` render as the empty string, other primitives by their string coercion,
a nested object as `"[object Object]"`. -/
def joinElem : Option JsVal → String
  | none => ""
  | some JsVal.jnull => ""
  | some (JsVal.num q) => ratToStr q
  | some (JsVal.str s) => s
  | some (JsVal.bool b) => if b then "true" else "false"
  | some (JsVal.obj _) => "[object Object]"

/-- `Array.prototype.join('|')` over already-rendered strings. -/
def joinBar : List String → String
  | [] => ""
  | [s] => s
  | s :: rest => s ++ "|" ++ joinBar rest

/-- Model of `createGroupKey`: resolve every group-by path on the record and
join with `'|'`. -/
def createGroupKey (keys : List String) (item : JsVal) : String :=
  joinBar (keys.map (fun k => joinElem (getNestedValue item k)))

/-- One step of the grouping reduce: `if (!acc[key]) acc[key] = []; acc[key].push(item)`,
on an association list in first-seen key order. -/
def insertGroup {α : Type} (k : String) (r : α) :
    List (String × List α) → List (String × List α)
  | [] => [(k, [r])]
  | (k', items) :: rest =>
    if k' = k then (k', items ++ [r]) :: rest
    else (k', items) :: insertGroup k r rest

/-- The grouping reduce of `transformData`: a single left fold partitioning
the items by key. (JS `Object.entries` enumerates integer-like keys first;
group enumeration order is modelled as first-seen insertion order, and no
claim below depends on the enumeration order of groups.) -/
def groupByKey {α : Type} (key : α → String) (l : List α) : List (String × List α) :=
  l.foldl (fun acc r => insertGroup (key r) r acc) []

/-- A resolved value contributes to an aggregate iff `typeof val === 'number'`. -/
def jsToNum : Option JsVal → Option Rat
  | some (JsVal.num q) => some q
  | _ => none

/-- The numeric resolutions of `field` over a group's members:
`groupItems.map(item => getNestedValue(item, field)).filter(v => typeof v === 'number')`. -/
def numericValues (items : List JsVal) (field : String) : List Rat :=
  (items.map (fun item => getNestedValue item field)).filterMap jsToNum

/-- `values.reduce((sum, v) => sum + v, 0)`. -/
def jsSum (vs : List Rat) : Rat := vs.foldl (fun sum v => sum + v) 0

/-- `Math.min(...values)` on a non-empty list (the `[]` case is unreachable:
the caller guards `values.length === 0` first). -/
def jsMinList : List Rat → Rat
  | [] => 0
  | v :: rest => rest.foldl min v

/-- `Math.max(...values)` on a non-empty list. -/
def jsMaxList : List Rat → Rat
  | [] => 0
  | v :: rest => rest.foldl max v

/-- The recognized aggregation kinds (cases of the `switch`). -/
def isKnownKind (kind : String) : Bool :=
  kind == "sum" || kind == "avg" || kind == "min" || kind == "max" || kind == "count"

/-- One aggregation entry: the empty check precedes the `switch`, so an empty
numeric list yields `null` for every kind; otherwise the five known kinds
compute their statistic and any other kind throws
`Unknown aggregation: ${aggFn}`. -/
def applyAgg (kind : String) (vs : List Rat) : Except String (Option Rat) :=
  if vs = [] then .ok none
  else if kind = "sum" then .ok (some (jsSum vs))
  else if kind = "avg" then .ok (some (jsSum vs / (vs.length : Rat)))
  else if kind = "min" then .ok (some (jsMinList vs))
  else if kind = "max" then .ok (some (jsMaxList vs))
  else if kind = "count" then .ok (some ((vs.length : Rat)))
  else .error ("Unknown aggregation: " ++ kind)

/-- The aggregates object of one group: each `(field, kind)` entry of
`aggregations` in order, with a thrown error propagating. -/
def perGroupAggs (aggs : List (String × String)) (items : List JsVal) :
    Except String (List (String × Option Rat)) :=
  match aggs with
  | [] => .ok []
  | (field, kind) :: rest =>
    match applyAgg kind (numericValues items field) with
    | .error e => .error e
    | .ok v =>
      match perGroupAggs rest items with
      | .error e => .error e
      | .ok vs => .ok ((field, v) :: vs)

/-- Last segment of a dot path: `k.split('.').pop()`. -/
def lastSegment (path : String) : String :=
  String.mk (((splitOnChar '.' path.data).getLast?).getD [])

/-- The group identity object: for each group-by path, its last segment mapped
to the corresponding `'|'`-separated component of the group key (`undefined`
when the key has fewer components). -/
def identityOf (keys : List String) (key : String) : List (String × Option String) :=
  let parts := (splitOnChar '|' key.data).map (fun l => String.mk l)
  keys.enum.map (fun p => (lastSegment p.2, parts.get? p.1))

/-- One output group of `transformData`:
`{ ...groupIdentity, aggregates, items, count }`. -/
structure GroupOut where
  identity : List (String × Option String)
  aggregates : List (String × Option Rat)
  items : List JsVal
  count : Nat

/-- `groupBy` is one field path or an array of field paths. -/
inductive GroupBySpec where
  | one (p : String)
  | many (ps : List String)

/-- `Array.isArray(groupBy) ? groupBy : [groupBy]`. -/
def keysOf : GroupBySpec → List String
  | .one p => [p]
  | .many ps => ps

/-- `sortBy` option: `{ field, order = 'asc' }`. -/
structure SortByAgg where
  field : String
  order : Option String

/-- Options object of `transformData` (`groupBy` is required; the
arguments-shape checks of the source are discharged by these types). -/
structure XOptions where
  groupBy : GroupBySpec
  aggregations : List (String × String)
  sortBy : Option SortByAgg
  filterFn : Option (JsVal → Bool)

/-- Field lookup on an aggregates object. -/
def lookupAggField : List (String × Option Rat) → String → Option (Option Rat)
  | [], _ => none
  | (k, v) :: rest, key => if k = key then some v else lookupAggField rest key

/-- The aggregate value a group sorts by: `a.aggregates[field] ?? 0`
(an absent entry or a `null` aggregate both coerce to `0`). -/
def aggSortValue (aggregates : List (String × Option Rat)) (field : String) : Rat :=
  match lookupAggField aggregates field with
  | some (some q) => q
  | _ => 0

/-- Stable insertion of `x` into a sorted list: `x` goes before the first
element not strictly below it, so equal keys retain input order — the
stability ES2019 guarantees for `Array.prototype.sort`. -/
def insSorted {α : Type} (lt : α → α → Bool) (x : α) : List α → List α
  | [] => [x]
  | y :: ys => if lt y x then y :: insSorted lt x ys else x :: y :: ys

/-- Stable sort by a boolean strict order, modelling `result.sort(comparator)`
for a sign comparator `valA - valB`. -/
def stableSortBy {α : Type} (lt : α → α → Bool) (l : List α) : List α :=
  l.foldr (insSorted lt) []

/-- Exception-propagating map, modelling `Array.prototype.map` of a callback
that can throw: elements are processed left to right and the first thrown
error propagates. -/
def exMapM {α β : Type} (f : α → Except String β) : List α → Except String (List β)
  | [] => .ok []
  | a :: l =>
    match f a with
    | .error e => .error e
    | .ok b =>
      match exMapM f l with
      | .error e => .error e
      | .ok bs => .ok (b :: bs)

/-- The optional pre-filter: `filterFn ? arr.filter(filterFn) : arr`. -/
def applyPreFilter (filterFn : Option (JsVal → Bool)) (arr : List JsVal) : List JsVal :=
  match filterFn with
  | some f => arr.filter f
  | none => arr

/-- Output record for one group. -/
def mkGroupOut (keys : List String) (aggs : List (String × String))
    (g : String × List JsVal) : Except String GroupOut :=
  match perGroupAggs aggs g.2 with
  | .error e => .error e
  | .ok aggregates => .ok ⟨identityOf keys g.1, aggregates, g.2, g.2.length⟩

/-- Model of `transformData(arr, options)`: optional pre-filter, O(n) grouping
reduce, per-group aggregation (a thrown `Unknown aggregation` propagates), and
the optional sort of the groups by an aggregate value with `null` coerced
to `0`. -/
def transformData (arr : List JsVal) (options : XOptions) :
    Except String (List GroupOut) :=
  let keys := keysOf options.groupBy
  let items := applyPreFilter options.filterFn arr
  let groups := groupByKey (createGroupKey keys) items
  match exMapM (mkGroupOut keys options.aggregations) groups with
  | .error e => .error e
  | .ok result =>
    .ok (match options.sortBy with
      | some sortBy =>
        if sortBy.field ≠ "" then
          let ord := sortBy.order.getD "asc"
          if ord = "asc" then
            stableSortBy (fun a b => aggSortValue a.aggregates sortBy.field <
              aggSortValue b.aggregates sortBy.field) result
          else
            stableSortBy (fun a b => aggSortValue b.aggregates sortBy.field <
              aggSortValue a.aggregates sortBy.field) result
        else result
      | none => result)

/-- Boolean success test for `Except`. -/
def exIsOk {α : Type} : Except String α → Bool
  | .ok _ => true
  | .error _ => false

/-- A string free of the `'|'` group-key delimiter. -/
def delimFree (s : String) : Bool := s.data.all (fun c => c != '|')

/-- The exact condition under which `parsePartialDate` yields `null`: empty
input, or an empty first dash-segment, or a first segment that `parseInt`s to
`NaN`, `0`, or a year below 1900. (The month and day segments do not occur in
this condition.) -/
def yearRejected (dateStr : String) : Bool :=
  if dateStr = "" then true else
  match splitOnChar '-' dateStr.data with
  | p :: _ =>
    if p = [] then true else
      match jsParseIntL p with
      | none => true
      | some y => if y = 0 ∨ y < 1900 then true else false
  | [] => true

/-- Does `hay` start with `needle`? (Plain executable sequence check used to
state facts about error-message contents.) -/
def seqStartsWith : List Char → List Char → Bool
  | [], _ => true
  | _ :: _, [] => false
  | a :: as, b :: bs => a = b && seqStartsWith as bs

/-- Does `needle` occur contiguously inside `hay`? -/
def seqContains (needle : List Char) : List Char → Bool
  | [] => seqStartsWith needle []
  | b :: rest => seqStartsWith needle (b :: rest) || seqContains needle rest

/-! ### Lemmas about the grouping reduce -/

theorem flat_insertGroup {α : Type} (k : String) (r : α)
    (acc : List (String × List α)) :
    ((insertGroup k r acc).map Prod.snd).flatten.Perm
      ((acc.map Prod.snd).flatten ++ [r]) := by
  induction acc with
  | nil => simp [insertGroup]
  | cons p rest ih =>
    obtain ⟨k', items⟩ := p
    by_cases h : k' = k
    · simp only [insertGroup, if_pos h, List.map_cons, List.flatten_cons]
      rw [List.append_assoc, List.append_assoc]
      exact List.Perm.append_left items List.perm_append_comm
    · simp only [insertGroup, if_neg h, List.map_cons, List.flatten_cons]
      rw [List.append_assoc]
      exact List.Perm.append_left items ih

theorem flat_foldl_insertGroup {α : Type} (key : α → String) :
    ∀ (l : List α) (acc : List (String × List α)),
    (((l.foldl (fun acc r => insertGroup (key r) r acc) acc)).map Prod.snd).flatten.Perm
      ((acc.map Prod.snd).flatten ++ l) := by
  intro l
  induction l with
  | nil => simp
  | cons a l ih =>
    intro acc
    simp only [List.foldl_cons]
    refine ((ih (insertGroup (key a) a acc)).trans ?_)
    refine (List.Perm.append_right l (flat_insertGroup (key a) a acc)).trans ?_
    rw [List.append_assoc]
    simp

/-- The flattened group items are a permutation of the grouped input. -/
theorem groupByKey_flat_perm {α : Type} (key : α → String) (l : List α) :
    ((groupByKey key l).map Prod.snd).flatten.Perm l := by
  simpa [groupByKey] using flat_foldl_insertGroup key l []

theorem mem_of_mem_groupByKey {α : Type} {key : α → String} {l : List α}
    {g : String × List α} {r : α}
    (hg : g ∈ groupByKey key l) (hr : r ∈ g.2) : r ∈ l :=
  (groupByKey_flat_perm key l).subset
    (List.mem_flatten.mpr ⟨g.2, List.mem_map_of_mem Prod.snd hg, hr⟩)

theorem exists_group_of_mem {α : Type} {key : α → String} {l : List α} {r : α}
    (hr : r ∈ l) : ∃ g ∈ groupByKey key l, r ∈ g.2 := by
  have : r ∈ ((groupByKey key l).map Prod.snd).flatten :=
    (groupByKey_flat_perm key l).symm.subset hr
  obtain ⟨s, hs, hrs⟩ := List.mem_flatten.mp this
  obtain ⟨g, hg, hgs⟩ := List.mem_map.mp hs
  exact ⟨g, hg, hgs ▸ hrs⟩

theorem insertGroup_key_inv {α : Type} {key : α → String} {k : String} {r : α}
    (hk : key r = k) :
    ∀ {acc : List (String × List α)},
    (∀ g ∈ acc, ∀ x ∈ g.2, key x = g.1) →
    ∀ g ∈ insertGroup k r acc, ∀ x ∈ g.2, key x = g.1 := by
  intro acc
  induction acc with
  | nil =>
    intro _ g hg x hx
    simp only [insertGroup, List.mem_singleton] at hg
    subst hg
    simp only [List.mem_singleton] at hx
    simpa [hx] using hk
  | cons p rest ih =>
    obtain ⟨k', items⟩ := p
    intro hacc g hg x hx
    by_cases h : k' = k
    · simp only [insertGroup, if_pos h, List.mem_cons] at hg
      rcases hg with hg | hg
      · subst hg
        simp only [List.mem_append, List.mem_singleton] at hx
        rcases hx with hx | hx
        · exact hacc (k', items) (List.mem_cons_self _ _) x hx
        · subst hx; simpa [h] using hk
      · exact hacc g (List.mem_cons_of_mem _ hg) x hx
    · simp only [insertGroup, if_neg h, List.mem_cons] at hg
      rcases hg with hg | hg
      · subst hg
        exact hacc (k', items) (List.mem_cons_self _ _) x hx
      · exact ih (fun g hg => hacc g (List.mem_cons_of_mem _ hg)) g hg x hx

/-- Every member of a group resolves to that group's key. -/
theorem groupByKey_mem_key {α : Type} (key : α → String) (l : List α) :
    ∀ g ∈ groupByKey key l, ∀ x ∈ g.2, key x = g.1 := by
  suffices h : ∀ (l : List α) (acc : List (String × List α)),
      (∀ g ∈ acc, ∀ x ∈ g.2, key x = g.1) →
      ∀ g ∈ l.foldl (fun acc r => insertGroup (key r) r acc) acc, ∀ x ∈ g.2, key x = g.1 by
    exact h l [] (by simp)
  intro l
  induction l with
  | nil => intro acc hacc; simpa using hacc
  | cons a l ih =>
    intro acc hacc
    simp only [List.foldl_cons]
    exact ih _ (insertGroup_key_inv rfl hacc)

theorem mem_map_fst_insertGroup {α : Type} {k x : String} {r : α}
    {acc : List (String × List α)}
    (hx : x ∈ (insertGroup k r acc).map Prod.fst) :
    x ∈ acc.map Prod.fst ∨ x = k := by
  induction acc with
  | nil => simpa [insertGroup] using hx
  | cons p rest ih =>
    obtain ⟨k', items⟩ := p
    by_cases h : k' = k
    · exact Or.inl (by simpa [insertGroup, h] using hx)
    · simp only [insertGroup, if_neg h, List.map_cons, List.mem_cons] at hx
      rcases hx with hx | hx
      · exact Or.inl (by simp [hx])
      · rcases ih hx with h' | h'
        · exact Or.inl (by simp [List.mem_cons]; right; simpa using h')
        · exact Or.inr h'

theorem nodup_map_fst_insertGroup {α : Type} {k : String} {r : α}
    {acc : List (String × List α)}
    (h : (acc.map Prod.fst).Nodup) :
    ((insertGroup k r acc).map Prod.fst).Nodup := by
  induction acc with
  | nil => simp [insertGroup]
  | cons p rest ih =>
    obtain ⟨k', items⟩ := p
    simp only [List.map_cons, List.nodup_cons] at h
    by_cases hk : k' = k
    · simpa [insertGroup, hk, List.nodup_cons] using h
    · simp only [insertGroup, if_neg hk, List.map_cons, List.nodup_cons]
      refine ⟨fun hmem => ?_, ih h.2⟩
      rcases mem_map_fst_insertGroup hmem with h' | h'
      · exact h.1 h'
      · exact hk h'

/-- Group keys are pairwise distinct. -/
theorem groupByKey_keys_nodup {α : Type} (key : α → String) (l : List α) :
    ((groupByKey key l).map Prod.fst).Nodup := by
  suffices h : ∀ (l : List α) (acc : List (String × List α)),
      (acc.map Prod.fst).Nodup →
      (((l.foldl (fun acc r => insertGroup (key r) r acc) acc)).map Prod.fst).Nodup by
    exact h l [] (by simp)
  intro l
  induction l with
  | nil => intro acc hacc; simpa using hacc
  | cons a l ih =>
    intro acc hacc
    simp only [List.foldl_cons]
    exact ih _ (nodup_map_fst_insertGroup hacc)

theorem insertGroup_snd_ne_nil {α : Type} {k : String} {r : α}
    {acc : List (String × List α)}
    (h : ∀ g ∈ acc, g.2 ≠ []) :
    ∀ g ∈ insertGroup k r acc, g.2 ≠ [] := by
  induction acc with
  | nil => intro g hg; simp only [insertGroup, List.mem_singleton] at hg; simp [hg]
  | cons p rest ih =>
    obtain ⟨k', items⟩ := p
    intro g hg
    by_cases hk : k' = k
    · simp only [insertGroup, if_pos hk, List.mem_cons] at hg
      rcases hg with hg | hg
      · subst hg; simp
      · exact h g (List.mem_cons_of_mem _ hg)
    · simp only [insertGroup, if_neg hk, List.mem_cons] at hg
      rcases hg with hg | hg
      · subst hg; exact h (k', items) (List.mem_cons_self _ _)
      · exact ih (fun g hg => h g (List.mem_cons_of_mem _ hg)) g hg

/-- Groups are never empty: each is created around its first member. -/
theorem groupByKey_snd_ne_nil {α : Type} (key : α → String) (l : List α) :
    ∀ g ∈ groupByKey key l, g.2 ≠ [] := by
  suffices h : ∀ (l : List α) (acc : List (String × List α)),
      (∀ g ∈ acc, g.2 ≠ []) →
      ∀ g ∈ l.foldl (fun acc r => insertGroup (key r) r acc) acc, g.2 ≠ [] by
    exact h l [] (by simp)
  intro l
  induction l with
  | nil => intro acc hacc; simpa using hacc
  | cons a l ih =>
    intro acc hacc
    simp only [List.foldl_cons]
    exact ih _ (insertGroup_snd_ne_nil hacc)

theorem eq_of_mem_of_fst_eq {β γ : Type} {gs : List (β × γ)} {g₁ g₂ : β × γ}
    (h : (gs.map Prod.fst).Nodup) (h₁ : g₁ ∈ gs) (h₂ : g₂ ∈ gs)
    (hfst : g₁.1 = g₂.1) : g₁ = g₂ := by
  induction gs with
  | nil => cases h₁
  | cons g rest ih =>
    simp only [List.map_cons, List.nodup_cons] at h
    simp only [List.mem_cons] at h₁ h₂
    rcases h₁ with h₁ | h₁ <;> rcases h₂ with h₂ | h₂
    · rw [h₁, h₂]
    · exfalso
      apply h.1
      rw [← h₁, hfst]
      exact List.mem_map_of_mem Prod.fst h₂
    · exfalso
      apply h.1
      rw [← h₂, ← hfst]
      exact List.mem_map_of_mem Prod.fst h₁
    · exact ih h.2 h₁ h₂

/-! ### String lemmas for the composite group key -/

theorem stringData_append (s₁ s₂ : String) : (s₁ ++ s₂).data = s₁.data ++ s₂.data := by
  cases s₁; cases s₂; rfl

theorem eq_of_barSplit_eq {c₁ c₂ r₁ r₂ : List Char}
    (h₁ : c₁.all (fun c => c != '|') = true) (h₂ : c₂.all (fun c => c != '|') = true)
    (h : c₁ ++ '|' :: r₁ = c₂ ++ '|' :: r₂) : c₁ = c₂ := by
  induction c₁ generalizing c₂ with
  | nil =>
    cases c₂ with
    | nil => rfl
    | cons b bs =>
      simp only [List.nil_append, List.cons_append, List.cons.injEq] at h
      simp [List.all_cons, ← h.1] at h₂
  | cons a as ih =>
    cases c₂ with
    | nil =>
      simp only [List.cons_append, List.nil_append, List.cons.injEq] at h
      simp [List.all_cons, h.1] at h₁
    | cons b bs =>
      simp only [List.cons_append, List.cons.injEq] at h
      simp only [List.all_cons, Bool.and_eq_true] at h₁ h₂
      rw [h.1, ih h₁.2 h₂.2 h.2]

/-- Two-path composite keys with a delimiter-free first component agree on the
first component whenever the joined keys agree. -/
theorem first_component_eq_of_key_eq {c₁ c₂ d₁ d₂ : String}
    (h₁ : delimFree c₁ = true) (h₂ : delimFree c₂ = true)
    (h : c₁ ++ "|" ++ d₁ = c₂ ++ "|" ++ d₂) : c₁ = c₂ := by
  have hd : c₁.data ++ '|' :: d₁.data = c₂.data ++ '|' :: d₂.data := by
    have := congrArg String.data h
    simpa [stringData_append] using this
  have := eq_of_barSplit_eq h₁ h₂ hd
  cases c₁; cases c₂
  exact congrArg String.mk (by simpa using this)

/-! ### Lemmas about the aggregation statistics -/

theorem foldl_add_eq (l : List Rat) : ∀ a : Rat, l.foldl (fun s v => s + v) a = a + l.sum := by
  induction l with
  | nil => intro a; simp
  | cons x l ih =>
    intro a
    simp only [List.foldl_cons, List.sum_cons, ih (a + x)]
    ring

theorem jsSum_eq_sum (l : List Rat) : jsSum l = l.sum := by
  simpa [jsSum] using foldl_add_eq l 0

theorem foldl_min_le_init (l : List Rat) : ∀ a : Rat, l.foldl min a ≤ a := by
  induction l with
  | nil => intro a; simp
  | cons x l ih =>
    intro a
    simpa using le_trans (ih (min a x)) (min_le_left a x)

theorem foldl_min_le_mem (l : List Rat) : ∀ a : Rat, ∀ v ∈ l, l.foldl min a ≤ v := by
  induction l with
  | nil => intro a v hv; cases hv
  | cons x l ih =>
    intro a v hv
    rcases List.mem_cons.mp hv with hv | hv
    · subst hv
      simpa using le_trans (foldl_min_le_init l (min a v)) (min_le_right a v)
    · simpa using ih (min a x) v hv

theorem foldl_min_mem (l : List Rat) : ∀ a : Rat, l.foldl min a = a ∨ l.foldl min a ∈ l := by
  induction l with
  | nil => intro a; simp
  | cons x l ih =>
    intro a
    rcases ih (min a x) with h | h
    · rcases min_choice a x with hm | hm
      · exact Or.inl (by simpa [hm] using h)
      · exact Or.inr (by simp only [List.foldl_cons]; rw [h, hm]; exact List.mem_cons_self x l)
    · exact Or.inr (List.mem_cons_of_mem x (by simpa using h))

theorem jsMinList_mem {l : List Rat} (h : l ≠ []) : jsMinList l ∈ l := by
  cases l with
  | nil => exact absurd rfl h
  | cons v rest =>
    rcases foldl_min_mem rest v with h' | h'
    · simp [jsMinList, h']
    · exact List.mem_cons_of_mem v (by simpa [jsMinList] using h')

theorem jsMinList_le {l : List Rat} (v : Rat) (hv : v ∈ l) : jsMinList l ≤ v := by
  cases l with
  | nil => cases hv
  | cons x rest =>
    rcases List.mem_cons.mp hv with h | h
    · subst h; simpa [jsMinList] using foldl_min_le_init rest v
    · simpa [jsMinList] using foldl_min_le_mem rest x v h

theorem foldl_max_ge_init (l : List Rat) : ∀ a : Rat, a ≤ l.foldl max a := by
  induction l with
  | nil => intro a; simp
  | cons x l ih =>
    intro a
    simpa using le_trans (le_max_left a x) (ih (max a x))

theorem foldl_max_ge_mem (l : List Rat) : ∀ a : Rat, ∀ v ∈ l, v ≤ l.foldl max a := by
  induction l with
  | nil => intro a v hv; cases hv
  | cons x l ih =>
    intro a v hv
    rcases List.mem_cons.mp hv with hv | hv
    · subst hv
      simpa using le_trans (le_max_right a v) (foldl_max_ge_init l (max a v))
    · simpa using ih (max a x) v hv

theorem foldl_max_mem (l : List Rat) : ∀ a : Rat, l.foldl max a = a ∨ l.foldl max a ∈ l := by
  induction l with
  | nil => intro a; simp
  | cons x l ih =>
    intro a
    rcases ih (max a x) with h | h
    · rcases max_choice a x with hm | hm
      · exact Or.inl (by simpa [hm] using h)
      · exact Or.inr (by simp only [List.foldl_cons]; rw [h, hm]; exact List.mem_cons_self x l)
    · exact Or.inr (List.mem_cons_of_mem x (by simpa using h))

theorem jsMaxList_mem {l : List Rat} (h : l ≠ []) : jsMaxList l ∈ l := by
  cases l with
  | nil => exact absurd rfl h
  | cons v rest =>
    rcases foldl_max_mem rest v with h' | h'
    · simp [jsMaxList, h']
    · exact List.mem_cons_of_mem v (by simpa [jsMaxList] using h')

theorem jsMaxList_ge {l : List Rat} (v : Rat) (hv : v ∈ l) : v ≤ jsMaxList l := by
  cases l with
  | nil => cases hv
  | cons x rest =>
    rcases List.mem_cons.mp hv with h | h
    · subst h; simpa [jsMaxList] using foldl_max_ge_init rest v
    · simpa [jsMaxList] using foldl_max_ge_mem rest x v h

/-! ### Error behaviour of the aggregation switch -/

theorem exIsOk_false_iff {α : Type} (x : Except String α) :
    exIsOk x = false ↔ ∃ e, x = .error e := by
  cases x <;> simp [exIsOk]

theorem applyAgg_error_msg {kind : String} {vs : List Rat} {e : String}
    (h : applyAgg kind vs = .error e) :
    e = "Unknown aggregation: " ++ kind ∧ isKnownKind kind = false ∧ vs ≠ [] := by
  by_cases h0 : vs = []
  · simp [applyAgg, h0] at h
  · refine ⟨?_, ?_, h0⟩ <;>
    · simp only [applyAgg, if_neg h0] at h
      by_cases h1 : kind = "sum" <;> by_cases h2 : kind = "avg" <;>
        by_cases h3 : kind = "min" <;> by_cases h4 : kind = "max" <;>
        by_cases h5 : kind = "count" <;>
        simp_all [isKnownKind]

theorem applyAgg_error_of_unknown {kind : String} {vs : List Rat}
    (hk : isKnownKind kind = false) (hvs : vs ≠ []) :
    applyAgg kind vs = .error ("Unknown aggregation: " ++ kind) := by
  simp only [isKnownKind, Bool.or_eq_false_iff, beq_eq_false_iff_ne, ne_eq] at hk
  simp [applyAgg, if_neg hvs, hk.1.1.1.1, hk.1.1.1.2, hk.1.1.2, hk.1.2, hk.2]

theorem perGroupAggs_error_msg {aggs : List (String × String)} {items : List JsVal}
    {e : String} (h : perGroupAggs aggs items = .error e) :
    ∃ p ∈ aggs, isKnownKind p.2 = false ∧ numericValues items p.1 ≠ [] ∧
      e = "Unknown aggregation: " ++ p.2 := by
  induction aggs with
  | nil => simp [perGroupAggs] at h
  | cons p rest ih =>
    obtain ⟨field, kind⟩ := p
    simp only [perGroupAggs] at h
    cases hA : applyAgg kind (numericValues items field) with
    | error e' =>
      rw [hA] at h
      obtain ⟨he, hk, hvs⟩ := applyAgg_error_msg hA
      cases h
      exact ⟨(field, kind), List.mem_cons_self _ _, hk, hvs, he⟩
    | ok v =>
      rw [hA] at h
      cases hR : perGroupAggs rest items with
      | error e' =>
        rw [hR] at h
        cases h
        obtain ⟨p, hp, hrest⟩ := ih hR
        exact ⟨p, List.mem_cons_of_mem _ hp, hrest⟩
      | ok vs => rw [hR] at h; cases h

theorem perGroupAggs_error_of_unknown {aggs : List (String × String)} {items : List JsVal}
    {p : String × String} (hp : p ∈ aggs) (hk : isKnownKind p.2 = false)
    (hvs : numericValues items p.1 ≠ []) :
    ∃ e, perGroupAggs aggs items = .error e := by
  induction aggs with
  | nil => cases hp
  | cons q rest ih =>
    obtain ⟨field, kind⟩ := q
    rcases List.mem_cons.mp hp with hq | hq
    · subst hq
      have hk' : isKnownKind kind = false := hk
      have hvs' : numericValues items field ≠ [] := hvs
      exact ⟨"Unknown aggregation: " ++ kind,
        by simp [perGroupAggs, applyAgg_error_of_unknown hk' hvs']⟩
    · simp only [perGroupAggs]
      cases hA : applyAgg kind (numericValues items field) with
      | error e => exact ⟨e, rfl⟩
      | ok v =>
        obtain ⟨e, he⟩ := ih hq
        exact ⟨e, by rw [he]⟩

theorem exMapM_error_msg {α β : Type} {f : α → Except String β} {l : List α} {e : String}
    (h : exMapM f l = .error e) : ∃ a ∈ l, f a = .error e := by
  induction l with
  | nil => simp [exMapM] at h
  | cons a l ih =>
    simp only [exMapM] at h
    cases hA : f a with
    | error e' =>
      rw [hA] at h
      cases h
      exact ⟨a, List.mem_cons_self _ _, hA⟩
    | ok b =>
      rw [hA] at h
      cases hR : exMapM f l with
      | error e' =>
        rw [hR] at h
        cases h
        obtain ⟨x, hx, hfx⟩ := ih hR
        exact ⟨x, List.mem_cons_of_mem _ hx, hfx⟩
      | ok bs => rw [hR] at h; cases h

theorem exMapM_error_of_mem {α β : Type} {f : α → Except String β} {l : List α}
    {a : α} {e : String} (ha : a ∈ l) (hfa : f a = .error e) :
    ∃ e', exMapM f l = .error e' := by
  induction l with
  | nil => cases ha
  | cons x l ih =>
    simp only [exMapM]
    cases hA : f x with
    | error e' => exact ⟨e', rfl⟩
    | ok b =>
      rcases List.mem_cons.mp ha with hx | hx
      · subst hx; rw [hA] at hfa; cases hfa
      · obtain ⟨e', he'⟩ := ih hx
        exact ⟨e', by rw [he']⟩

/-! ### Error behaviour of `transformData` as a whole -/

theorem mkGroupOut_error_iff {keys : List String} {aggs : List (String × String)}
    {g : String × List JsVal} {e : String} :
    mkGroupOut keys aggs g = .error e ↔ perGroupAggs aggs g.2 = .error e := by
  cases h : perGroupAggs aggs g.2 <;> simp [mkGroupOut, h]

theorem transformData_error_iff {arr : List JsVal} {opts : XOptions} {e : String} :
    transformData arr opts = .error e ↔
      exMapM (mkGroupOut (keysOf opts.groupBy) opts.aggregations)
        (groupByKey (createGroupKey (keysOf opts.groupBy))
          (applyPreFilter opts.filterFn arr)) = .error e := by
  cases h : exMapM (mkGroupOut (keysOf opts.groupBy) opts.aggregations)
      (groupByKey (createGroupKey (keysOf opts.groupBy))
        (applyPreFilter opts.filterFn arr)) <;>
    simp [transformData, h]

/-! ### Pagination lemmas -/

theorem totalPages_eq_ceil {α : Type} (l : List α) (ps : Int) (hps : 0 < ps) :
    totalPages l ps = ⌈(l.length : ℚ) / (ps : ℚ)⌉ := by
  obtain ⟨d, rfl⟩ : ∃ d : ℕ, ps = (d : Int) := ⟨ps.toNat, (Int.toNat_of_nonneg hps.le).symm⟩
  have h2 : ⌊((-(l.length : Int) : ℤ) : ℚ) / (d : ℚ)⌋ = (-(l.length : Int)) / (d : ℤ) :=
    Rat.floor_intCast_div_natCast _ d
  have h1 : ((-(l.length : Int) : ℤ) : ℚ) / (d : ℚ) = -((l.length : ℚ) / (d : ℚ)) := by
    push_cast
    ring
  have h3 : totalPages l (d : Int) = -⌊-((l.length : ℚ) / (d : ℚ))⌋ := by
    rw [totalPages, ← h2, h1]
  rw [h3, Int.floor_neg]
  simp

theorem totalPages_nonneg {α : Type} (l : List α) {ps : Int} (hps : 0 < ps) :
    0 ≤ totalPages l ps := by
  have h : (-(l.length : Int)) / ps ≤ 0 := by
    have := Int.ediv_le_ediv hps (show -(l.length : Int) ≤ 0 by simp)
    simpa using this
  simpa [totalPages] using neg_nonneg.mpr h

theorem length_le_totalPages_mul {α : Type} (l : List α) {ps : Int} (hps : 0 < ps) :
    (l.length : Int) ≤ totalPages l ps * ps := by
  have h := Int.ediv_mul_le (-(l.length : Int)) (ne_of_gt hps)
  have h2 : totalPages l ps * ps = -((-(l.length : Int)) / ps * ps) := by
    rw [totalPages]
    ring
  linarith

theorem paginate_zero_empty {α : Type} (l : List α) {ps : Int} (hps : 0 < ps) :
    paginate l ps 0 = [] := by
  simp only [paginate, jsSlice]
  have hs : (0 - 1) * ps < 0 := by nlinarith
  have hz : ¬ ((0 : Int) * ps < 0) := by simp
  rw [if_pos hs, if_neg hz]
  have : min ((0 : Int) * ps) (l.length : Int) = 0 := by simp
  rw [this]
  have hk : (0 : Int) ≤ max ((l.length : Int) + (0 - 1) * ps) 0 := le_max_right _ _
  rw [Int.toNat_of_nonpos (by linarith)]
  simp

theorem paginate_past_last_empty {α : Type} (l : List α) {ps p : Int} (hps : 0 < ps)
    (hp : totalPages l ps < p) : paginate l ps p = [] := by
  have h0 : 0 ≤ totalPages l ps := totalPages_nonneg l hps
  have hp1 : 1 ≤ p := by linarith
  have hlen : (l.length : Int) ≤ (p - 1) * ps := by
    have h1 : totalPages l ps * ps ≤ (p - 1) * ps :=
      mul_le_mul_of_nonneg_right (by linarith) hps.le
    have h2 := length_le_totalPages_mul l hps
    linarith
  simp only [paginate, jsSlice]
  have hsnn : ¬ ((p - 1) * ps < 0) := not_lt.mpr (mul_nonneg (by linarith) hps.le)
  have hfnn : ¬ (p * ps < 0) := not_lt.mpr (mul_nonneg (by linarith) hps.le)
  rw [if_neg hsnn, if_neg hfnn]
  have hk : min ((p - 1) * ps) (l.length : Int) = (l.length : Int) := min_eq_right hlen
  have hf : min (p * ps) (l.length : Int) = (l.length : Int) := by
    refine min_eq_right ?_
    nlinarith
  rw [hk, hf]
  simp

/-! ### The year-only rejection condition of `parsePartialDate` -/

theorem parsePartialDate_isNone_eq (s : String) :
    (parsePartialDate s).isNone = yearRejected s := by
  unfold parsePartialDate yearRejected
  by_cases h : s = ""
  · simp [h]
  · simp only [if_neg h]
    cases hp : splitOnChar '-' s.data with
    | nil => simp
    | cons p rest =>
      by_cases hpe : p = []
      · simp [hpe]
      · simp only [if_neg hpe]
        cases hy : jsParseIntL p with
        | none => simp
        | some y =>
          by_cases hcond : y = 0 ∨ y < 1900
          · simp [hcond]
          · simp only [if_neg hcond, if_neg hcond]
            cases rest with
            | nil => simp [jsTruthy]
            | cons q rest' =>
              cases rest' with
              | nil =>
                split
                · simp
                · split <;> simp
              | cons r rest'' =>
                split
                · simp
                · split <;> simp

/-! ### Claim theorems -/

/-- C1: the comparator of `filteredHotels` cannot implement the specified
two-level sort: it returns only `1` or `-1`, never `0`, so the
`primaryCompare !== 0` test always succeeds and the secondary comparison is
dead code. At the concrete pair of records with equal prices below, the
comparator (primary `price` ascending, secondary `rating` ascending) returns
`-1` in both argument orders instead of letting the secondary rating order
decide. -/
theorem c1_secondary_sort_dead_code :
    (∀ (s : SortConfig) (a b : Hotel),
      hotelCompare s a b = 1 ∨ hotelCompare s a b = -1) ∧
    hotelCompare ⟨.price, .asc, some ⟨.rating, .asc⟩⟩
        ⟨3, "Mountain Stay", "Chiang Mai", 100, 4, [], "", ""⟩
        ⟨4, "Urban Loft", "Bangkok", 100, 5, [], "", ""⟩ = -1 ∧
    hotelCompare ⟨.price, .asc, some ⟨.rating, .asc⟩⟩
        ⟨4, "Urban Loft", "Bangkok", 100, 5, [], "", ""⟩
        ⟨3, "Mountain Stay", "Chiang Mai", 100, 4, [], "", ""⟩ = -1 ∧
    (100 : Rat) = 100 ∧ (4 : Rat) < 5 := by
  refine ⟨?_, by decide, by decide, rfl, by decide⟩
  intro s a b
  rcases s with ⟨f, o, sec⟩
  cases o with
  | asc =>
    by_cases h : fieldGt f a b
    · simp [hotelCompare, h]
    · simp [hotelCompare, h]
  | desc =>
    by_cases h : fieldLt f a b
    · simp [hotelCompare, h]
    · simp [hotelCompare, h]

/-- C2 counterexample: `parsePartialDate("2025-13")` does not return `null` —
the month segment is never range-checked, and `new Date(2025, 12, …)` rolls
over to January 2026, so the call returns the interval for January 2026. -/
theorem c2_month13_not_null :
    parsePartialDate "2025-13" =
      some ⟨jsTime 2025 12 1 0 0 0, jsTime 2025 12 31 23 59 59⟩ := by decide

/-- C2 (amended): `parsePartialDate` never raises and returns `null` exactly
when the input is empty, or its first dash-segment is empty or fails to
`parseInt`, or the parsed year is `0` or below 1900 — the shapes of the month
and day segments are never validated (out-of-range values roll over through
the calendar). -/
theorem c2_parse_null_iff_year_rejected (s : String) :
    (parsePartialDate s).isNone = yearRejected s :=
  parsePartialDate_isNone_eq s

/-- C3 counterexample: an absent group-by field does not contribute a distinct
"missing" marker — `Array.join` renders `undefined` as the empty string, so a
record omitting field `a` lands in the same group (key `""`) as a record whose
`a` is the real empty string. -/
theorem c3_absent_collides_with_empty_string :
    createGroupKey ["a"] (JsVal.obj [("a", JsVal.str "")]) = "" ∧
    createGroupKey ["a"] (JsVal.obj []) = "" ∧
    groupByKey (createGroupKey ["a"]) [JsVal.obj [("a", JsVal.str "")], JsVal.obj []] =
      [("", [JsVal.obj [("a", JsVal.str "")], JsVal.obj []])] :=
  ⟨rfl, rfl, rfl⟩

/-- C3 (amended): two records land in the same group iff their joined
`createGroupKey` strings are equal — with absent resolutions contributing the
empty string rather than a distinct marker, so the equivalence is on the
joined strings only. -/
theorem c3_same_group_iff_joined_keys_eq (paths : List String) (l : List JsVal)
    (r₁ r₂ : JsVal) (g₁ g₂ : String × List JsVal)
    (hg₁ : g₁ ∈ groupByKey (createGroupKey paths) l)
    (hg₂ : g₂ ∈ groupByKey (createGroupKey paths) l)
    (hr₁ : r₁ ∈ g₁.2) (hr₂ : r₂ ∈ g₂.2) :
    g₁ = g₂ ↔ createGroupKey paths r₁ = createGroupKey paths r₂ := by
  constructor
  · intro h
    subst h
    rw [groupByKey_mem_key (createGroupKey paths) l g₁ hg₁ r₁ hr₁,
      groupByKey_mem_key (createGroupKey paths) l g₁ hg₁ r₂ hr₂]
  · intro h
    have h₁ := groupByKey_mem_key (createGroupKey paths) l g₁ hg₁ r₁ hr₁
    have h₂ := groupByKey_mem_key (createGroupKey paths) l g₂ hg₂ r₂ hr₂
    exact eq_of_mem_of_fst_eq (groupByKey_keys_nodup (createGroupKey paths) l) hg₁ hg₂
      (by rw [← h₁, ← h₂, h])

/-- Witness for C3: at the concrete colliding records, applying the theorem to
the single output group shows their keys are equal. -/
theorem c3_same_group_iff_joined_keys_eq_witness :
    createGroupKey ["a"] (JsVal.obj [("a", JsVal.str "")]) =
      createGroupKey ["a"] (JsVal.obj []) :=
  (c3_same_group_iff_joined_keys_eq ["a"]
      [JsVal.obj [("a", JsVal.str "")], JsVal.obj []]
      (JsVal.obj [("a", JsVal.str "")]) (JsVal.obj [])
      ("", [JsVal.obj [("a", JsVal.str "")], JsVal.obj []])
      ("", [JsVal.obj [("a", JsVal.str "")], JsVal.obj []])
      (show _ ∈ [("", [JsVal.obj [("a", JsVal.str "")], JsVal.obj []])] from
        List.mem_singleton_self _)
      (show _ ∈ [("", [JsVal.obj [("a", JsVal.str "")], JsVal.obj []])] from
        List.mem_singleton_self _)
      (List.mem_cons_self _ _)
      (List.mem_cons_of_mem _ (List.mem_cons_self _ _))).mp rfl

/-- C4 counterexample: the thrown message names only the kind, not the field
(`"price"` is not a substring of `"Unknown aggregation: median"`), and with
zero numeric resolutions the unknown kind does not throw at all — the
aggregate is silently `null`. -/
theorem c4_unknown_kind_behaviour :
    transformData [JsVal.obj [("category", JsVal.str "Hotel"), ("price", JsVal.num 120)]]
        ⟨.one "category", [("price", "median")], none, none⟩
      = .error "Unknown aggregation: median" ∧
    seqContains "price".data "Unknown aggregation: median".data = false ∧
    transformData [JsVal.obj [("category", JsVal.str "Hotel")]]
        ⟨.one "category", [("price", "median")], none, none⟩
      = .ok [⟨[("category", some "Hotel")], [("price", none)],
          [JsVal.obj [("category", JsVal.str "Hotel")]], 1⟩] :=
  ⟨rfl, by decide, rfl⟩

/-- C4 (amended): `transformData` fails — with an `Error` whose message names
the offending kind (and only the kind) — precisely when some group has at
least one numeric resolution for a field mapped to an unrecognized aggregation
kind; if every such field has zero numeric resolutions in every group, no
error is raised. -/
theorem c4_unknown_kind_error_iff (arr : List JsVal) (opts : XOptions) :
    ((exIsOk (transformData arr opts) = false) ↔
      ∃ g ∈ groupByKey (createGroupKey (keysOf opts.groupBy))
          (applyPreFilter opts.filterFn arr),
        ∃ p ∈ opts.aggregations, isKnownKind p.2 = false ∧
          numericValues g.2 p.1 ≠ []) ∧
    (∀ e, transformData arr opts = .error e →
      ∃ p ∈ opts.aggregations, isKnownKind p.2 = false ∧
        e = "Unknown aggregation: " ++ p.2) := by
  constructor
  · constructor
    · intro h
      obtain ⟨e, he⟩ := (exIsOk_false_iff _).mp h
      obtain ⟨g, hg, hge⟩ := exMapM_error_msg (transformData_error_iff.mp he)
      obtain ⟨p, hp, hk, hvs, _⟩ := perGroupAggs_error_msg (mkGroupOut_error_iff.mp hge)
      exact ⟨g, hg, p, hp, hk, hvs⟩
    · rintro ⟨g, hg, p, hp, hk, hvs⟩
      obtain ⟨e, he⟩ := perGroupAggs_error_of_unknown hp hk hvs
      obtain ⟨e', he'⟩ := exMapM_error_of_mem hg (mkGroupOut_error_iff.mpr he)
      exact (exIsOk_false_iff _).mpr ⟨e', transformData_error_iff.mpr he'⟩
  · intro e he
    obtain ⟨g, hg, hge⟩ := exMapM_error_msg (transformData_error_iff.mp he)
    obtain ⟨p, hp, hk, hvs, hmsg⟩ := perGroupAggs_error_msg (mkGroupOut_error_iff.mp hge)
    exact ⟨p, hp, hk, hmsg⟩

/-- Witness for C4: the amended characterization applied at a concrete call
with an unknown kind over a group holding one numeric `price`. -/
theorem c4_unknown_kind_error_iff_witness :
    exIsOk (transformData
      [JsVal.obj [("category", JsVal.str "Hotel"), ("price", JsVal.num 120)]]
      ⟨.one "category", [("price", "median")], none, none⟩) = false :=
  (c4_unknown_kind_error_iff
      [JsVal.obj [("category", JsVal.str "Hotel"), ("price", JsVal.num 120)]]
      ⟨.one "category", [("price", "median")], none, none⟩).1.mpr
    ⟨("Hotel", [JsVal.obj [("category", JsVal.str "Hotel"), ("price", JsVal.num 120)]]),
      show _ ∈ [("Hotel",
          [JsVal.obj [("category", JsVal.str "Hotel"), ("price", JsVal.num 120)]])] from
        List.mem_singleton_self _,
      ("price", "median"), List.mem_singleton_self _, by decide, by decide⟩

/-- C5 counterexample: composite grouping by `[category, location.city]` is
not finer than grouping by `category` alone — the `'|'` join is ambiguous, so
records with categories `"a|b"` and `"a"` share the composite key `"a|b|c"`
(one composite group) while landing in two different single-key groups. -/
theorem c5_composite_not_finer :
    groupByKey (createGroupKey ["category", "location.city"])
        [JsVal.obj [("category", JsVal.str "a|b"),
            ("location", JsVal.obj [("city", JsVal.str "c")])],
          JsVal.obj [("category", JsVal.str "a"),
            ("location", JsVal.obj [("city", JsVal.str "b|c")])]]
      = [("a|b|c",
          [JsVal.obj [("category", JsVal.str "a|b"),
              ("location", JsVal.obj [("city", JsVal.str "c")])],
            JsVal.obj [("category", JsVal.str "a"),
              ("location", JsVal.obj [("city", JsVal.str "b|c")])]])] ∧
    groupByKey (createGroupKey ["category"])
        [JsVal.obj [("category", JsVal.str "a|b"),
            ("location", JsVal.obj [("city", JsVal.str "c")])],
          JsVal.obj [("category", JsVal.str "a"),
            ("location", JsVal.obj [("city", JsVal.str "b|c")])]]
      = [("a|b", [JsVal.obj [("category", JsVal.str "a|b"),
            ("location", JsVal.obj [("city", JsVal.str "c")])]]),
          ("a", [JsVal.obj [("category", JsVal.str "a"),
            ("location", JsVal.obj [("city", JsVal.str "b|c")])]])] :=
  ⟨rfl, rfl⟩

/-- C5 (amended): whenever every record's resolved `category` string is free
of the `'|'` join delimiter, composite grouping by `[category, location.city]`
partitions finer than grouping by `category`: every composite group's items
are contained in a single-key group. -/
theorem c5_refines_when_delimiter_free (l : List JsVal)
    (hfree : ∀ r ∈ l, delimFree (joinElem (getNestedValue r "category")) = true) :
    ∀ g ∈ groupByKey (createGroupKey ["category", "location.city"]) l,
      ∃ g' ∈ groupByKey (createGroupKey ["category"]) l, ∀ r ∈ g.2, r ∈ g'.2 := by
  intro g hg
  obtain ⟨r₀, hr₀⟩ : ∃ r₀, r₀ ∈ g.2 := by
    cases h2 : g.2 with
    | nil => exact absurd h2 (groupByKey_snd_ne_nil _ _ g hg)
    | cons x xs => exact ⟨x, h2 ▸ List.mem_cons_self x xs⟩
  have hr₀l : r₀ ∈ l := mem_of_mem_groupByKey hg hr₀
  obtain ⟨g', hg', hr₀g'⟩ :=
    @exists_group_of_mem JsVal (createGroupKey ["category"]) l r₀ hr₀l
  refine ⟨g', hg', ?_⟩
  intro r hr
  have hrl : r ∈ l := mem_of_mem_groupByKey hg hr
  have hk : createGroupKey ["category", "location.city"] r =
      createGroupKey ["category", "location.city"] r₀ := by
    rw [groupByKey_mem_key _ _ g hg r hr, groupByKey_mem_key _ _ g hg r₀ hr₀]
  have hkey : joinElem (getNestedValue r "category") ++ "|" ++
        joinElem (getNestedValue r "location.city")
      = joinElem (getNestedValue r₀ "category") ++ "|" ++
        joinElem (getNestedValue r₀ "location.city") := by
    simpa [createGroupKey, joinBar, String.append_assoc] using hk
  have hcat : joinElem (getNestedValue r "category") =
      joinElem (getNestedValue r₀ "category") :=
    first_component_eq_of_key_eq (hfree r hrl) (hfree r₀ hr₀l) hkey
  have hsingle : createGroupKey ["category"] r = createGroupKey ["category"] r₀ := by
    simpa [createGroupKey, joinBar] using hcat
  obtain ⟨g'', hg'', hrg''⟩ :=
    @exists_group_of_mem JsVal (createGroupKey ["category"]) l r hrl
  have hgg : g'' = g' :=
    eq_of_mem_of_fst_eq (groupByKey_keys_nodup _ _) hg'' hg'
      (by rw [← groupByKey_mem_key _ _ g'' hg'' r hrg'',
            ← groupByKey_mem_key _ _ g' hg' r₀ hr₀g', hsingle])
  exact hgg ▸ hrg''

/-- Witness for C5: at a one-record list with a delimiter-free category, the
amended refinement produces a containing single-key group. -/
theorem c5_refines_when_delimiter_free_witness :
    ∃ g' ∈ groupByKey (createGroupKey ["category"])
        [JsVal.obj [("category", JsVal.str "Hotel"),
          ("location", JsVal.obj [("city", JsVal.str "Bangkok")])]],
      ∀ r ∈ [JsVal.obj [("category", JsVal.str "Hotel"),
          ("location", JsVal.obj [("city", JsVal.str "Bangkok")])]], r ∈ g'.2 :=
  c5_refines_when_delimiter_free
    [JsVal.obj [("category", JsVal.str "Hotel"),
      ("location", JsVal.obj [("city", JsVal.str "Bangkok")])]]
    (by decide)
    ("Hotel|Bangkok",
      [JsVal.obj [("category", JsVal.str "Hotel"),
        ("location", JsVal.obj [("city", JsVal.str "Bangkok")])]])
    (show _ ∈ [("Hotel|Bangkok",
        [JsVal.obj [("category", JsVal.str "Hotel"),
          ("location", JsVal.obj [("city", JsVal.str "Bangkok")])]])] from
      List.mem_singleton_self _)

/-- C6: for every input array, `groupBy` configuration and optional
`preFilter`, the grouping reduce of `transformData` partitions the
(pre-filtered) input exactly: the concatenation of all groups' items is a
permutation of the pre-filtered input (no loss, no duplication), group keys
are pairwise distinct, and every member of a group resolves to that group's
key — so each record occurrence lies in exactly one group. -/
theorem c6_partition_exact (gb : GroupBySpec) (filterFn : Option (JsVal → Bool))
    (arr : List JsVal) :
    (((groupByKey (createGroupKey (keysOf gb)) (applyPreFilter filterFn arr)).map
        Prod.snd).flatten).Perm (applyPreFilter filterFn arr) ∧
    ((groupByKey (createGroupKey (keysOf gb)) (applyPreFilter filterFn arr)).map
        Prod.fst).Nodup ∧
    ∀ g ∈ groupByKey (createGroupKey (keysOf gb)) (applyPreFilter filterFn arr),
      ∀ r ∈ g.2, createGroupKey (keysOf gb) r = g.1 :=
  ⟨groupByKey_flat_perm _ _, groupByKey_keys_nodup _ _, groupByKey_mem_key _ _⟩

/-- Witness for C6: the permutation conjunct at a concrete three-record input
with two categories. -/
theorem c6_partition_exact_witness :
    (((groupByKey (createGroupKey (keysOf (.one "category")))
        (applyPreFilter none
          [JsVal.obj [("category", JsVal.str "Hotel")],
            JsVal.obj [("category", JsVal.str "Flight")],
            JsVal.obj [("category", JsVal.str "Hotel")]])).map
        Prod.snd).flatten).Perm
      (applyPreFilter none
        [JsVal.obj [("category", JsVal.str "Hotel")],
          JsVal.obj [("category", JsVal.str "Flight")],
          JsVal.obj [("category", JsVal.str "Hotel")]]) :=
  (c6_partition_exact (.one "category") none
    [JsVal.obj [("category", JsVal.str "Hotel")],
      JsVal.obj [("category", JsVal.str "Flight")],
      JsVal.obj [("category", JsVal.str "Hotel")]]).1

/-- C7: for each group and each `(field, kind)` aggregation, the statistic is
computed over exactly the numeric resolutions of `field` (`numericValues`):
with zero numeric values every kind yields `null` and no error; otherwise
`sum` is the arithmetic total, `avg` is the total divided by the number of
numeric values, `count` is the number of numeric resolutions (not the group
size), and `min`/`max` are members of, and bounds for, the numeric subset. -/
theorem c7_aggregate_statistics (items : List JsVal) (field : String) :
    (numericValues items field = [] →
      ∀ kind, applyAgg kind (numericValues items field) = .ok none) ∧
    (numericValues items field ≠ [] →
      applyAgg "sum" (numericValues items field) =
        .ok (some (numericValues items field).sum) ∧
      applyAgg "avg" (numericValues items field) =
        .ok (some ((numericValues items field).sum /
          ((numericValues items field).length : Rat))) ∧
      applyAgg "count" (numericValues items field) =
        .ok (some ((numericValues items field).length : Rat)) ∧
      (∃ m, applyAgg "min" (numericValues items field) = .ok (some m) ∧
        m ∈ numericValues items field ∧ ∀ v ∈ numericValues items field, m ≤ v) ∧
      (∃ M, applyAgg "max" (numericValues items field) = .ok (some M) ∧
        M ∈ numericValues items field ∧ ∀ v ∈ numericValues items field, v ≤ M)) := by
  constructor
  · intro h kind
    simp [applyAgg, h]
  · intro h
    refine ⟨?_, ?_, ?_,
      ⟨jsMinList (numericValues items field), ?_, jsMinList_mem h,
        fun v hv => jsMinList_le v hv⟩,
      ⟨jsMaxList (numericValues items field), ?_, jsMaxList_mem h,
        fun v hv => jsMaxList_ge v hv⟩⟩
    · rw [applyAgg, if_neg h, if_pos rfl, jsSum_eq_sum]
    · rw [applyAgg, if_neg h, if_neg (by decide), if_pos rfl, jsSum_eq_sum]
    · rw [applyAgg, if_neg h, if_neg (by decide), if_neg (by decide),
        if_neg (by decide), if_neg (by decide), if_pos rfl]
    · rw [applyAgg, if_neg h, if_neg (by decide), if_neg (by decide), if_pos rfl]
    · rw [applyAgg, if_neg h, if_neg (by decide), if_neg (by decide),
        if_neg (by decide), if_pos rfl]

/-- Witness for C7: at a concrete group where one member resolves `price`
numerically, one non-numerically and one not at all, `count` is `1` (the
number of numeric resolutions), not the group size `3`. -/
theorem c7_aggregate_statistics_witness :
    applyAgg "count" (numericValues
      [JsVal.obj [("price", JsVal.num 120)],
        JsVal.obj [("price", JsVal.str "n/a")],
        JsVal.obj []] "price") =
      .ok (some ((numericValues
        [JsVal.obj [("price", JsVal.num 120)],
          JsVal.obj [("price", JsVal.str "n/a")],
          JsVal.obj []] "price").length : Rat)) :=
  ((c7_aggregate_statistics
      [JsVal.obj [("price", JsVal.num 120)],
        JsVal.obj [("price", JsVal.str "n/a")],
        JsVal.obj []] "price").2 (by decide)).2.2.1

/-- C8: when both check-in and check-out filter texts are supplied (non-empty),
the date criterion accepts a record iff both texts parse, the parsed check-in
interval's start is strictly before the parsed check-out interval's end, and
the combined interval `[checkIn.start, checkOut.end]` overlaps the record's
availability — any failure merely rejects the record (the predicate stays a
total boolean function; nothing is thrown). -/
theorem c8_both_dates_criterion (ci co : String) (hotelRange : JsInterval)
    (hci : ci ≠ "") (hco : co ≠ "") :
    dateRangeCriterion ci co hotelRange = true ↔
      ∃ I J, parsePartialDate ci = some I ∧ parsePartialDate co = some J ∧
        I.start < J.stop ∧
        rangesOverlap ⟨I.start, J.stop⟩ hotelRange = true := by
  simp only [dateRangeCriterion, if_pos hci]
  cases hI : parsePartialDate ci with
  | none => simp [hI]
  | some I =>
    simp only [if_pos hco]
    cases hJ : parsePartialDate co with
    | none => simp [hJ]
    | some J =>
      by_cases hge : I.start ≥ J.stop
      · have hnlt := not_lt.mpr hge
        simp [hge, hnlt]
      · have hlt := lt_of_not_ge hge
        simp [hge, hlt]

/-- Witness for C8: the criterion evaluated with January and February 2025 as
check-in/check-out texts against a mid-January availability interval. -/
theorem c8_both_dates_criterion_witness :
    dateRangeCriterion "2025-01" "2025-02"
        ⟨jsTime 2025 0 10 0 0 0, jsTime 2025 0 20 0 0 0⟩ = true ↔
      ∃ I J, parsePartialDate "2025-01" = some I ∧
        parsePartialDate "2025-02" = some J ∧ I.start < J.stop ∧
        rangesOverlap ⟨I.start, J.stop⟩
          ⟨jsTime 2025 0 10 0 0 0, jsTime 2025 0 20 0 0 0⟩ = true :=
  c8_both_dates_criterion "2025-01" "2025-02"
    ⟨jsTime 2025 0 10 0 0 0, jsTime 2025 0 20 0 0 0⟩ (by decide) (by decide)

/-- C9 counterexample: a negative page number does not yield an empty slice —
`Array.slice` treats negative bounds as offsets from the end, so page `-1` of
30 records with page size 10 returns elements 10–19 (and `-1` is out of range
for the 3 total pages). -/
theorem c9_negative_page_not_empty :
    paginate (List.range 30) 10 (-1) =
      [10, 11, 12, 13, 14, 15, 16, 17, 18, 19] ∧
    totalPages (List.range 30) 10 = 3 := by
  constructor <;> rfl

/-- C9 (amended): pagination is 1-based and never raises; every out-of-range
page number that is non-negative (0, or greater than `totalPages`) yields an
empty slice; `totalPages` equals `ceil(count / pageSize)` and is `0` for an
empty list. (A negative page number can return a non-empty slice via JS
negative-index slicing.) -/
theorem c9_pagination_amended {α : Type} (l : List α) (ps p : Int) (hps : 0 < ps) :
    (0 ≤ p → p = 0 ∨ totalPages l ps < p → paginate l ps p = []) ∧
    totalPages l ps = ⌈(l.length : ℚ) / (ps : ℚ)⌉ ∧
    (l.length = 0 → totalPages l ps = 0) := by
  refine ⟨?_, totalPages_eq_ceil l ps hps, ?_⟩
  · intro _ hout
    rcases hout with h | h
    · subst h
      exact paginate_zero_empty l hps
    · exact paginate_past_last_empty l hps h
  · intro h
    simp [totalPages, h]

/-- Witness for C9: page 5 of a 3-record list with page size 2 (2 total pages)
is empty. -/
theorem c9_pagination_amended_witness :
    paginate [10, 20, 30] 2 5 = ([] : List Int) :=
  (c9_pagination_amended [10, 20, 30] 2 5 (by decide)).1 (by decide)
    (Or.inr (by decide))

/-- C10: a dash-segment parsing to `0` is treated as absent, not invalid:
`"2025-00"` (month zero) returns the full-year interval for 2025,
`"2025-05-00"` (day zero) returns the whole-month interval for May 2025, and
the trailing empty segment of `"2025-"` likewise falls back to the full-year
interval. -/
theorem c10_zero_segment_fallback :
    parsePartialDate "2025-00" =
      some ⟨jsTime 2025 0 1 0 0 0, jsTime 2025 11 31 23 59 59⟩ ∧
    parsePartialDate "2025-00" = parsePartialDate "2025" ∧
    parsePartialDate "2025-05-00" =
      some ⟨jsTime 2025 4 1 0 0 0, jsTime 2025 4 31 23 59 59⟩ ∧
    parsePartialDate "2025-" =
      some ⟨jsTime 2025 0 1 0 0 0, jsTime 2025 11 31 23 59 59⟩ := by
  refine ⟨by decide, by decide, by decide, by decide⟩
